import Mathlib

/-!
Verification of the connection lifecycle and I/O engine of the
protocol-server core (`src/protocol-server.h`).

The repository ships only the public header (declarations and their
documentation); the implementation translation below is therefore modelled
from the specification's operational descriptions, as noted on each
definition.  Bytes are modelled as `Nat`, payloads as `List Nat`, and the
per-connection state as explicit structures with explicit state passing.
-/

namespace ProtocolServer

/-- Ownership tag of a write-buffer packet.  Modelled from the spec:
`copied` payloads are core-allocated copies freed on completion, `moved`
payloads are caller memory freed on completion, `file` packets close their
`FILE *` handle on completion. -/
inductive Ownership
  | copied
  | moved
  | file
deriving DecidableEq, Repr

/-- A write-buffer packet.  Modelled from the spec data model:
`{payload pointer; length; offset-sent; ownership tag}` — the payload is the
byte list, its length is the packet length, and `offset` counts the bytes
already handed to the write hook. -/
structure Packet where
  payload : List Nat
  offset : Nat
  own : Ownership
deriving DecidableEq, Repr

/-- The bytes of a packet not yet handed to the write hook. -/
def remainingBytes (p : Packet) : List Nat :=
  p.payload.drop p.offset

/-- The byte stream still owed to the peer by a write-buffer queue:
the concatenation of each queued packet's unsent remainder, head first. -/
def pendingStream (q : List Packet) : List Nat :=
  (q.map remainingBytes).flatten

/-- Enqueue a normal-urgency packet.  Modelled from the spec:
`write`/`write_move`/`sendfile` enqueue at the tail of the queue. -/
def enqueueNormal (q : List Packet) (p : Packet) : List Packet :=
  q ++ [p]

/-- Insert an urgent packet.  Modelled from the spec:
the urgent insertion point is "after the current in-flight
(partially-sent) packet, before all other pending" — if the head packet
has already sent part of its payload the new packet goes right after it,
otherwise it goes at the head of the queue. -/
def insertUrgent (q : List Packet) (p : Packet) : List Packet :=
  match q with
  | [] => [p]
  | h :: t => if 0 < h.offset then h :: p :: t else p :: h :: t

/-- Result of one drain pass over a write-buffer queue.  Modelled from the
spec drain algorithm: the pass either closed the connection (hook returned
a negative count), stopped with packets left (hook returned 0), or emptied
the queue. -/
inductive DrainEnd
  | closed
  | stopped (q : List Packet)
  | emptied
deriving DecidableEq, Repr

/-- Observable outcome of a drain pass: the bytes handed to the write hook
and accepted, in order; the packets fully sent, popped and released per
their ownership tag, in order; and how the pass ended. -/
structure DrainOut where
  sent : List Nat
  released : List Packet
  outcome : DrainEnd
deriving DecidableEq, Repr

/-- One drain pass.  Modelled from the spec: "while the head packet has
unsent bytes, call the fd's write hook with (payload+offset, remaining).
Hook returns: n>0 → advance offset; n==0 → stop and leave writable armed;
n<0 → close the connection.  When offset reaches length, free/close per
ownership tag and pop."  The hook is modelled by the oracle `rs`: the list
of its successive return values; an exhausted oracle stops the pass like a
0 return. -/
def drain : List Int → List Packet → DrainOut
  | _, [] => ⟨[], [], .emptied⟩
  | [], q => ⟨[], [], .stopped q⟩
  | r :: rs, p :: q =>
    if r < 0 then ⟨[], [], .closed⟩
    else if r = 0 then ⟨[], [], .stopped (p :: q)⟩
    else
      let k := r.toNat
      let chunk := (p.payload.drop p.offset).take k
      let p2 : Packet := ⟨p.payload, p.offset + k, p.own⟩
      if p.payload.length ≤ p.offset + k then
        let rest := drain rs q
        ⟨chunk ++ rest.sent, p2 :: rest.released, rest.outcome⟩
      else
        let rest := drain rs (p2 :: q)
        ⟨chunk ++ rest.sent, rest.released, rest.outcome⟩

/-- A write hook oracle that accepts, at every call, every remaining byte
of the then-current head packet: the successive return values are each
queued packet's remaining length. -/
def fullOracle (q : List Packet) : List Int :=
  q.map fun p => ((p.payload.length - p.offset : Nat) : Int)

theorem drain_nil (rs : List Int) : drain rs [] = ⟨[], [], .emptied⟩ := by
  cases rs <;> rfl

theorem drain_full (q : List Packet)
    (h : ∀ p ∈ q, p.offset < p.payload.length) :
    drain (fullOracle q) q =
      ⟨pendingStream q,
       q.map (fun p => ⟨p.payload, p.payload.length, p.own⟩),
       .emptied⟩ := by
  induction q with
  | nil => rfl
  | cons p t ih =>
    have hp : p.offset < p.payload.length := h p (List.mem_cons_self _ _)
    have ht : ∀ x ∈ t, x.offset < x.payload.length :=
      fun x hx => h x (List.mem_cons_of_mem _ hx)
    have hrpos : (0 : Int) < ((p.payload.length - p.offset : Nat) : Int) := by
      have : 0 < p.payload.length - p.offset := Nat.sub_pos_of_lt hp
      exact_mod_cast this
    unfold fullOracle drain
    simp only [List.map_cons]
    rw [if_neg (by omega), if_neg (by omega)]
    have hk : ((p.payload.length - p.offset : Nat) : Int).toNat
        = p.payload.length - p.offset := Int.toNat_ofNat _
    rw [hk, if_pos (by omega)]
    have hrec := ih ht
    unfold fullOracle at hrec
    rw [hrec]
    have hlen : (p.payload.drop p.offset).length = p.payload.length - p.offset := by
      simp
    have htake : (p.payload.drop p.offset).take (p.payload.length - p.offset)
        = p.payload.drop p.offset := by
      rw [← hlen, List.take_length]
    have hoff : p.offset + (p.payload.length - p.offset) = p.payload.length := by
      omega
    simp [pendingStream, remainingBytes, htake, hoff]

/-- The protocol attached to a connection, as far as the lifecycle engine
inspects it: its service identification string (`struct Protocol.service`,
NULL modelled as `none`) and whether its `ping` callback pointer is set. -/
structure Protocol where
  service : Option String
  pingSet : Bool
deriving DecidableEq, Repr

/-- A connection-table slot.  Modelled from the spec data model: active
flag and protocol reference (an inactive slot has `protocol = none`),
read/write hooks (`none` = the default `recv`/`write` wrappers), per-fd
timeout in seconds, last-touch tick, write-buffer queue, scheduled-close
flag. -/
structure Slot where
  protocol : Option Protocol
  buffer : List Packet
  scheduledClose : Bool
  readHook : Option Nat
  writeHook : Option Nat
  timeout : Nat
  lastTouch : Nat
deriving DecidableEq, Repr

/-- The cleared slot: inactive, empty buffer, no flags, default hooks.
Modelled from the spec: closing a connection frees the slot, and hooks
"are cleared automatically once the connection is closed". -/
def defaultSlot : Slot :=
  ⟨none, [], false, none, none, 0, 0⟩

/-- What a `close` call did.  `freed` stands for "deregister from the
reactor, invoke `on_close`, free the slot"; `scheduled` stands for "return
immediately with the scheduled-close flag set". -/
inductive CloseEffect
  | freed
  | scheduled
deriving DecidableEq, Repr

/-- `Server.close`.  Modelled from the spec: "if the buffer is empty,
deregister and invoke `on_close`, then free slot; otherwise set
scheduled-close and let the drain path finish". -/
def closeConn (s : Slot) : Slot × CloseEffect :=
  if s.buffer.isEmpty then (defaultSlot, .freed)
  else ({s with scheduledClose := true}, .scheduled)

/-- `Server.write` (the copying variant) at slot level.  Modelled from the
spec: copy the data into a new packet and enqueue it at the tail; return 0
on success, -1 on error (inactive slot, or a slot whose scheduled-close
flag is set: such an fd "accepts no new outbound packets"). -/
def srvWrite (s : Slot) (data : List Nat) : Slot × Int :=
  if s.protocol.isNone then (s, -1)
  else if s.scheduledClose then (s, -1)
  else ({s with buffer := enqueueNormal s.buffer ⟨data, 0, .copied⟩}, 0)

/-- Observable outcome of a drain pass at slot level: the resulting slot,
the bytes accepted by the hook, the packets released, whether writable
interest was deregistered, whether `on_ready` was invoked, and whether the
connection was closed by this pass. -/
structure SlotDrainOut where
  slot : Slot
  sent : List Nat
  released : List Packet
  writableDereg : Bool
  onReadyInvoked : Bool
  closedNow : Bool
deriving DecidableEq, Repr

/-- Drain pass at slot level.  Modelled from the spec: on a negative hook
return the connection is closed; on a 0 return draining stops with
writable interest still armed; "when queue empties, deregister writable
interest and invoke `on_ready`"; "a connection whose scheduled-close flag
is set and whose queue has emptied is then closed" (without `on_ready`,
since no callback fires after `close` returned). -/
def slotDrain (rs : List Int) (s : Slot) : SlotDrainOut :=
  let d := drain rs s.buffer
  match d.outcome with
  | .closed => ⟨defaultSlot, d.sent, d.released, true, false, true⟩
  | .stopped q => ⟨{s with buffer := q}, d.sent, d.released, false, false, false⟩
  | .emptied =>
    if s.scheduledClose then ⟨defaultSlot, d.sent, d.released, true, false, true⟩
    else ⟨{s with buffer := []}, d.sent, d.released, true, true, false⟩

/-- What the timeout wheel did to one slot on a tick. -/
inductive TickAction
  | idle
  | pinged
  | closedOut
deriving DecidableEq, Repr

/-- One timeout-wheel visit of one slot.  Modelled from the spec: "For
each active slot, if `now - last_touch ≥ timeout`, call `ping` if set,
else `close`.  Timeout 0 means no timeout." -/
def tickSlot (now : Nat) (s : Slot) : TickAction :=
  match s.protocol with
  | none => .idle
  | some pr =>
    if s.timeout = 0 then .idle
    else if s.timeout ≤ now - s.lastTouch then
      if pr.pingSet then .pinged else .closedOut
    else .idle

/-- One full tick of the timeout wheel over the connection table.
Modelled from the spec: the per-second tick visits every active slot. -/
def tickAll (now : Nat) (tbl : List Slot) : List TickAction :=
  tbl.map (tickSlot now)

/-- `Server.attach` at table level.  Modelled from the spec: activate the
slot afresh for the new connection — protocol set, buffer empty, flags
clear, hooks at their defaults — with the settings' timeout. -/
def attach (tbl : List Slot) (fd : Nat) (pr : Protocol) (tout : Nat) :
    List Slot :=
  tbl.set fd {defaultSlot with protocol := some pr, timeout := tout}

/-- `Server.rw_hooks` at table level.  Modelled from the header: "These
hooks are attached to the specified socket", replacing the default
`recv`/`write` wrappers for that one connection. -/
def rwHooks (tbl : List Slot) (fd : Nat) (rh wh : Option Nat) :
    List Slot :=
  match tbl[fd]? with
  | none => tbl
  | some s => tbl.set fd {s with readHook := rh, writeHook := wh}

/-- Events observable on one fd during one attach-to-close lifetime:
the protocol callbacks `on_data`/`on_ready`/`ping`, a scheduled task
dispatched to the fd, the `close(fd)` call returning, and the `on_close`
callback. -/
inductive ConnEv
  | evData
  | evReady
  | evPing
  | evTask
  | evCloseCall
  | evOnClose
deriving DecidableEq, Repr

/-- Lifecycle phase of one attached fd: callbacks may fire while `active`;
after the `close(fd)` call the fd is `closing` (draining at most, no
callbacks) until `on_close` fires and the slot returns to the free pool
(`closed`). -/
inductive ConnPhase
  | active
  | closing
  | closed
deriving DecidableEq, Repr

/-- Per-fd lifecycle transition.  Modelled from the spec state machine and
ordering guarantees: `on_data`/`on_ready`/`ping`/tasks fire only while the
fd is active; `close(fd)` moves it to `closing`; the only event of a
closing fd is the single `on_close`; a closed fd emits nothing further in
this lifetime. -/
def connStep : ConnPhase → ConnEv → Option ConnPhase
  | .active, .evData => some .active
  | .active, .evReady => some .active
  | .active, .evPing => some .active
  | .active, .evTask => some .active
  | .active, .evCloseCall => some .closing
  | .closing, .evOnClose => some .closed
  | _, _ => none

/-- Run a sequence of events through the per-fd lifecycle machine;
`none` when some event is impossible in its phase. -/
def connRun : ConnPhase → List ConnEv → Option ConnPhase
  | s, [] => some s
  | s, e :: es =>
    match connStep s e with
    | some s2 => connRun s2 es
    | none => none

/-- A task targeted at a specific fd, with its fallback.  Modelled from
the spec task model: `{function; arg; fallback; target fd}` (functions and
arguments stand in as opaque identifiers). -/
structure FdTask where
  fd : Nat
  taskId : Nat
  argId : Nat
  fallbackId : Nat
deriving DecidableEq, Repr

/-- What dispatching one scheduled item did: ran the task on its fd with
its argument, or ran the fallback with `(fd, arg)` instead. -/
inductive TaskRun
  | ranTask (fd taskId argId : Nat)
  | ranFallback (fd fallbackId argId : Nat)
deriving DecidableEq, Repr

/-- Dispatch of one `fd_task` item.  Modelled from the spec: at dispatch
time, if the target slot is still active run the task; "if the slot
becomes inactive before dispatch, invoke `fallback(server, fd, arg)`
instead". -/
def dispatchFdTask (alive : Nat → Bool) (t : FdTask) : TaskRun :=
  if alive t.fd then .ranTask t.fd t.taskId t.argId
  else .ranFallback t.fd t.fallbackId t.argId

/-- Closing a connection and its pending `fd_task`s.  Modelled from the
spec: "closing a connection cancels all pending `fd_task`s on it; the
fallback runs at most once" — each pending item targeted at the closing fd
is replaced by one fallback run and removed from the pending queue. -/
def cancelOnClose (pending : List FdTask) (fd : Nat) :
    List TaskRun × List FdTask :=
  ((pending.filter (fun t => t.fd = fd)).map
     (fun t => .ranFallback t.fd t.fallbackId t.argId),
   pending.filter (fun t => t.fd ≠ fd))

/-- Whether a connection-table entry is selected by an `each` fan-out.
Modelled from the spec: an active connection "whose protocol's service
string equals `service` (or all, if NULL)". -/
def eachMatch (service : Option String) : Option Protocol → Bool
  | none => false
  | some pr =>
    match service with
    | none => true
    | some sv => pr.service = some sv

/-- The fds an `each(service, …)` call fans out to, from a snapshot of the
connection table (fd paired with its slot's protocol). -/
def eachTargets (tbl : List (Nat × Option Protocol))
    (service : Option String) : List Nat :=
  (tbl.filter (fun e => eachMatch service e.2)).map Prod.fst

/-- One event of an `each` fan-out: the per-fd task ran on a target, its
fallback replaced it (target closed before dispatch), or the final
`on_finish(origin)` fired. -/
inductive EachEv
  | taskOn (fd : Nat)
  | fallbackOn (fd : Nat)
  | finished (origin : Nat)
deriving DecidableEq, Repr

/-- An entire `each(service, task, arg, on_finish)` call.  Modelled from
the spec: fan out `fd_task` to every matching connection; each per-fd item
runs the task if its target is still alive at dispatch (`alive`), else its
fallback; "after the last per-fd task completes, invoke `on_finish` once
with the originating fd". -/
def runEach (tbl : List (Nat × Option Protocol)) (alive : Nat → Bool)
    (service : Option String) (origin : Nat) : List EachEv :=
  ((eachTargets tbl service).map
     (fun fd => if alive fd then EachEv.taskOn fd else EachEv.fallbackOn fd))
    ++ [EachEv.finished origin]

/-- Events of a graceful server stop, in order of occurrence. -/
inductive StopEv
  | acceptStopped
  | shutdownOn (fd : Nat)
  | drained
  | closeOn (fd : Nat)
  | finished
  | returned (code : Int)
deriving DecidableEq, Repr

/-- Graceful stop.  Modelled from the spec: "On SIGINT/SIGTERM, set the
stop flag and begin graceful stop: stop accepting, invoke `on_shutdown` on
every connection, drain a bounded interval, close remaining connections,
invoke `on_finish`, return" — `listen` returning 0 on clean stop. -/
def gracefulStop (conns : List Nat) : List StopEv :=
  StopEv.acceptStopped :: conns.map StopEv.shutdownOn
    ++ StopEv.drained :: conns.map StopEv.closeOn
    ++ [StopEv.finished, StopEv.returned 0]

/-- Stage number of a stop event, used to state that graceful-stop events
occur in phase order. -/
def stopStage : StopEv → Nat
  | .acceptStopped => 0
  | .shutdownOn _ => 1
  | .drained => 2
  | .closeOn _ => 3
  | .finished => 4
  | .returned _ => 5

/-- `Server.run_async` over the worker queue.  Modelled from the spec:
"enqueue on worker queue; if `threads == 0/1` with no pool, run inline and
return"; returns 0 on success and -1 on error (no task).  The result is
(queue afterwards, tasks executed inline on the caller, return value). -/
def runAsync (threads : Nat) (queue : List Nat) (t : Option Nat) :
    List Nat × List Nat × Int :=
  match t with
  | none => (queue, [], -1)
  | some task =>
    if threads ≤ 1 then (queue, [task], 0)
    else (queue ++ [task], [], 0)

theorem insertUrgent_cons (h u : Packet) (t : List Packet) :
    insertUrgent (h :: t) u =
      if 0 < h.offset then h :: u :: t else u :: h :: t := rfl

theorem drain_neg (r : Int) (rs : List Int) (p : Packet) (q : List Packet)
    (h : r < 0) : drain (r :: rs) (p :: q) = ⟨[], [], .closed⟩ := by
  conv_lhs => rw [drain.eq_def]
  dsimp only
  rw [if_pos h]

theorem drain_zero (r : Int) (rs : List Int) (p : Packet) (q : List Packet)
    (h : r = 0) : drain (r :: rs) (p :: q) = ⟨[], [], .stopped (p :: q)⟩ := by
  conv_lhs => rw [drain.eq_def]
  dsimp only
  rw [if_neg (by omega), if_pos h]

theorem drain_pos_cont (r : Int) (rs : List Int) (p : Packet)
    (q : List Packet) (h : 0 < r)
    (hlt : p.offset + r.toNat < p.payload.length) :
    drain (r :: rs) (p :: q) =
      ⟨(p.payload.drop p.offset).take r.toNat
          ++ (drain rs (⟨p.payload, p.offset + r.toNat, p.own⟩ :: q)).sent,
       (drain rs (⟨p.payload, p.offset + r.toNat, p.own⟩ :: q)).released,
       (drain rs (⟨p.payload, p.offset + r.toNat, p.own⟩ :: q)).outcome⟩ := by
  conv_lhs => rw [drain.eq_def]
  dsimp only
  rw [if_neg (by omega), if_neg (by omega), if_neg (by omega)]

theorem drain_pos_pop (r : Int) (rs : List Int) (p : Packet)
    (q : List Packet) (h : 0 < r)
    (hge : p.payload.length ≤ p.offset + r.toNat) :
    drain (r :: rs) (p :: q) =
      ⟨(p.payload.drop p.offset).take r.toNat ++ (drain rs q).sent,
       ⟨p.payload, p.offset + r.toNat, p.own⟩ :: (drain rs q).released,
       (drain rs q).outcome⟩ := by
  conv_lhs => rw [drain.eq_def]
  dsimp only
  rw [if_neg (by omega), if_neg (by omega), if_pos hge]

/-- C1 (amended): in every connection's write buffer, normal packets are
delivered in FIFO order (a `write`/`write_move`/`sendfile` call appends at
the tail, so its bytes follow everything already queued); every packet's
bytes are delivered contiguously (a completing drain emits exactly the
concatenation of the per-packet remainders in queue order); and an urgent
packet is inserted exactly after the currently in-flight (partially-sent)
packet and before all other pending packets — its bytes appear after the
in-flight packet's full payload and before the rest, never splitting the
in-flight packet — while with no partially-sent head it goes to the very
front.  (The original claim's "FIFO within the urgent class" fails when
two urgent packets are pending at once; see the counterexample.) -/
theorem c1_write_buffer_order :
    (∀ (q : List Packet) (p : Packet), p.offset = 0 →
        pendingStream (enqueueNormal q p) = pendingStream q ++ p.payload)
  ∧ (∀ q : List Packet, (∀ p ∈ q, p.offset < p.payload.length) →
        (drain (fullOracle q) q).sent = pendingStream q)
  ∧ (∀ (h u : Packet) (t : List Packet), 0 < h.offset → u.offset = 0 →
        insertUrgent (h :: t) u = h :: u :: t ∧
        h.payload.take h.offset ++ pendingStream (insertUrgent (h :: t) u)
          = h.payload ++ u.payload ++ pendingStream t)
  ∧ (∀ (h u : Packet) (t : List Packet), h.offset = 0 →
        insertUrgent (h :: t) u = u :: h :: t) := by
  refine ⟨?_, ?_, ?_, ?_⟩
  · intro q p hp
    simp [pendingStream, enqueueNormal, remainingBytes, hp]
  · intro q hq
    rw [drain_full q hq]
  · intro h u t hh hu
    have hins : insertUrgent (h :: t) u = h :: u :: t := by
      rw [insertUrgent_cons, if_pos hh]
    refine ⟨hins, ?_⟩
    rw [hins]
    simp only [pendingStream, List.map_cons, List.flatten_cons,
      remainingBytes, hu, List.drop_zero, ← List.append_assoc]
    rw [List.take_append_drop]
  · intro h u t hh
    rw [insertUrgent_cons, if_neg (by omega)]

theorem c1_write_buffer_order_witness :
    ((⟨[7, 8], 0, .moved⟩ : Packet).offset = 0 ∧
      pendingStream (enqueueNormal [⟨[5, 6], 1, .copied⟩] ⟨[7, 8], 0, .moved⟩)
        = pendingStream [⟨[5, 6], 1, .copied⟩] ++ [7, 8])
  ∧ ((0 : Nat) < (⟨[5, 6], 1, .copied⟩ : Packet).offset ∧
      insertUrgent [⟨[5, 6], 1, .copied⟩, ⟨[9], 0, .copied⟩] ⟨[3], 0, .file⟩
        = [⟨[5, 6], 1, .copied⟩, ⟨[3], 0, .file⟩, ⟨[9], 0, .copied⟩] ∧
      [5, 6].take 1 ++ pendingStream
          (insertUrgent [⟨[5, 6], 1, .copied⟩, ⟨[9], 0, .copied⟩]
            ⟨[3], 0, .file⟩)
        = [5, 6] ++ [3] ++ pendingStream [⟨[9], 0, .copied⟩]) := by
  refine ⟨⟨rfl, ?_⟩, ⟨by decide, ?_, ?_⟩⟩
  · exact c1_write_buffer_order.1 [⟨[5, 6], 1, .copied⟩] ⟨[7, 8], 0, .moved⟩
      rfl
  · exact (c1_write_buffer_order.2.2.1 ⟨[5, 6], 1, .copied⟩ ⟨[3], 0, .file⟩
      [⟨[9], 0, .copied⟩] (by decide) rfl).1
  · exact (c1_write_buffer_order.2.2.1 ⟨[5, 6], 1, .copied⟩ ⟨[3], 0, .file⟩
      [⟨[9], 0, .copied⟩] (by decide) rfl).2

/-- C1 counterexample: two urgent packets inserted while a packet is
in flight are delivered in reverse order of insertion — the urgent class
is LIFO, not FIFO.  With the head packet partially sent (offset 1 of
`[10, 11]`), inserting urgent `[1]` and then urgent `[2]` leaves the queue
as head, `[2]`-packet, `[1]`-packet, so the pending byte stream delivers
byte 2 (the later urgent write) before byte 1 (the earlier one). -/
theorem c1_urgent_fifo_counterexample :
    insertUrgent (insertUrgent [⟨[10, 11], 1, .copied⟩] ⟨[1], 0, .copied⟩)
        ⟨[2], 0, .copied⟩
      = [⟨[10, 11], 1, .copied⟩, ⟨[2], 0, .copied⟩, ⟨[1], 0, .copied⟩]
  ∧ pendingStream
      (insertUrgent (insertUrgent [⟨[10, 11], 1, .copied⟩]
        ⟨[1], 0, .copied⟩) ⟨[2], 0, .copied⟩) = [11, 2, 1] := by
  exact ⟨rfl, rfl⟩

/-- C2: the drain step on writable readiness: a hook return n<0 closes the
connection and frees the slot; a return of 0 stops draining with the queue
intact and writable interest still armed; a return n>0 hands the hook the
head's (payload+offset, remaining) window and advances the offset by n;
when the offset reaches the packet's length the packet is released and
popped; and when the queue empties, writable interest is deregistered and
`on_ready` is invoked. -/
theorem c2_drain_step :
    (∀ (r : Int) (rs : List Int) (s : Slot) (p : Packet) (q : List Packet),
        s.buffer = p :: q → r < 0 →
        (slotDrain (r :: rs) s).closedNow = true ∧
        (slotDrain (r :: rs) s).slot = defaultSlot)
  ∧ (∀ (r : Int) (rs : List Int) (s : Slot) (p : Packet) (q : List Packet),
        s.buffer = p :: q → r = 0 →
        slotDrain (r :: rs) s = ⟨s, [], [], false, false, false⟩)
  ∧ (∀ (r : Int) (rs : List Int) (p : Packet) (q : List Packet),
        0 < r → p.offset + r.toNat < p.payload.length →
        drain (r :: rs) (p :: q) =
          ⟨(p.payload.drop p.offset).take r.toNat
              ++ (drain rs (⟨p.payload, p.offset + r.toNat, p.own⟩ :: q)).sent,
           (drain rs (⟨p.payload, p.offset + r.toNat, p.own⟩ :: q)).released,
           (drain rs (⟨p.payload, p.offset + r.toNat, p.own⟩ :: q)).outcome⟩)
  ∧ (∀ (r : Int) (rs : List Int) (p : Packet) (q : List Packet),
        0 < r → p.payload.length ≤ p.offset + r.toNat →
        drain (r :: rs) (p :: q) =
          ⟨(p.payload.drop p.offset).take r.toNat ++ (drain rs q).sent,
           ⟨p.payload, p.offset + r.toNat, p.own⟩ :: (drain rs q).released,
           (drain rs q).outcome⟩)
  ∧ (∀ (rs : List Int) (s : Slot), s.scheduledClose = false →
        (drain rs s.buffer).outcome = .emptied →
        (slotDrain rs s).writableDereg = true ∧
        (slotDrain rs s).onReadyInvoked = true) := by
  refine ⟨?_, ?_, ?_, ?_, ?_⟩
  · intro r rs s p q hb hr
    unfold slotDrain
    rw [hb, drain_neg r rs p q hr]
    exact ⟨rfl, rfl⟩
  · intro r rs s p q hb hr
    unfold slotDrain
    rw [hb, drain_zero r rs p q hr]
    simp [← hb]
  · exact drain_pos_cont
  · exact drain_pos_pop
  · intro rs s hs hout
    unfold slotDrain
    simp [hout, hs]

theorem c2_drain_step_witness :
    (((⟨some ⟨none, false⟩, [⟨[5], 0, .copied⟩], false, none, none, 0,
          0⟩ : Slot).buffer = [⟨[5], 0, .copied⟩] ∧ (-1 : Int) < 0) ∧
      (slotDrain [-1] ⟨some ⟨none, false⟩, [⟨[5], 0, .copied⟩], false,
          none, none, 0, 0⟩).closedNow = true)
  ∧ ((0 : Int) < 2 ∧ (⟨[5, 6, 7], 0, .copied⟩ : Packet).offset
        + (2 : Int).toNat < [5, 6, 7].length ∧
      drain [2] [⟨[5, 6, 7], 0, .copied⟩] =
        ⟨([5, 6, 7].drop 0).take 2
            ++ (drain [] [(⟨[5, 6, 7], 2, .copied⟩ : Packet)]).sent,
         (drain [] [(⟨[5, 6, 7], 2, .copied⟩ : Packet)]).released,
         (drain [] [(⟨[5, 6, 7], 2, .copied⟩ : Packet)]).outcome⟩)
  ∧ (((⟨some ⟨none, false⟩, [⟨[5], 0, .copied⟩], false, none, none, 0,
          0⟩ : Slot).scheduledClose = false
      ∧ (drain [1] (⟨some ⟨none, false⟩, [⟨[5], 0, .copied⟩], false, none,
          none, 0, 0⟩ : Slot).buffer).outcome = .emptied)
      ∧ (slotDrain [1] ⟨some ⟨none, false⟩, [⟨[5], 0, .copied⟩], false,
          none, none, 0, 0⟩).writableDereg = true
      ∧ (slotDrain [1] ⟨some ⟨none, false⟩, [⟨[5], 0, .copied⟩], false,
          none, none, 0, 0⟩).onReadyInvoked = true) := by
  refine ⟨⟨⟨rfl, by decide⟩, ?_⟩, ⟨by decide, by decide, ?_⟩, ⟨⟨rfl, by decide⟩, ?_⟩⟩
  · exact (c2_drain_step.1 (-1) [] _ ⟨[5], 0, .copied⟩ [] rfl
      (by decide)).1
  · exact c2_drain_step.2.2.1 2 [] ⟨[5, 6, 7], 0, .copied⟩ [] (by decide)
      (by decide)
  · exact c2_drain_step.2.2.2.2 [1] ⟨some ⟨none, false⟩,
      [⟨[5], 0, .copied⟩], false, none, none, 0, 0⟩ rfl (by decide)

theorem connRun_from_closed (evs : List ConnEv) (s : ConnPhase)
    (h : connRun .closed evs = some s) : evs = [] := by
  cases evs with
  | nil => rfl
  | cons e es => cases e <;> simp [connRun, connStep] at h

theorem connRun_from_closing (evs : List ConnEv)
    (h : connRun .closing evs = some .closed) : evs = [.evOnClose] := by
  cases evs with
  | nil => simp [connRun] at h
  | cons e es =>
    cases e <;> simp only [connRun, connStep] at h <;>
      first
        | exact absurd h (by simp)
        | rw [connRun_from_closed es .closed h]

theorem connRun_active_shape (evs : List ConnEv)
    (h : connRun .active evs = some .closed) :
    ∃ pre, evs = pre ++ [.evCloseCall, .evOnClose] ∧
      ∀ e ∈ pre, e = .evData ∨ e = .evReady ∨ e = .evPing ∨ e = .evTask := by
  induction evs with
  | nil => simp [connRun] at h
  | cons e es ih =>
    cases e
    case evData =>
      obtain ⟨pre, hpre, hall⟩ := ih (by simpa [connRun, connStep] using h)
      refine ⟨.evData :: pre, by simp [hpre], ?_⟩
      intro x hx
      rcases List.mem_cons.mp hx with hx | hx
      · exact Or.inl hx
      · exact hall x hx
    case evReady =>
      obtain ⟨pre, hpre, hall⟩ := ih (by simpa [connRun, connStep] using h)
      refine ⟨.evReady :: pre, by simp [hpre], ?_⟩
      intro x hx
      rcases List.mem_cons.mp hx with hx | hx
      · exact Or.inr (Or.inl hx)
      · exact hall x hx
    case evPing =>
      obtain ⟨pre, hpre, hall⟩ := ih (by simpa [connRun, connStep] using h)
      refine ⟨.evPing :: pre, by simp [hpre], ?_⟩
      intro x hx
      rcases List.mem_cons.mp hx with hx | hx
      · exact Or.inr (Or.inr (Or.inl hx))
      · exact hall x hx
    case evTask =>
      obtain ⟨pre, hpre, hall⟩ := ih (by simpa [connRun, connStep] using h)
      refine ⟨.evTask :: pre, by simp [hpre], ?_⟩
      intro x hx
      rcases List.mem_cons.mp hx with hx | hx
      · exact Or.inr (Or.inr (Or.inr hx))
      · exact hall x hx
    case evCloseCall =>
      have hrest : connRun .closing es = some .closed := by
        simpa [connRun, connStep] using h
      refine ⟨[], ?_, by simp⟩
      rw [connRun_from_closing es hrest]
      rfl
    case evOnClose => simp [connRun, connStep] at h

theorem connTrace_get (pre : List ConnEv)
    (hall : ∀ e ∈ pre,
      e = .evData ∨ e = .evReady ∨ e = .evPing ∨ e = .evTask)
    (i : Fin (pre ++ [ConnEv.evCloseCall, ConnEv.evOnClose]).length) :
    ((pre ++ [ConnEv.evCloseCall, ConnEv.evOnClose]).get i = .evCloseCall →
        (i : Nat) = pre.length)
  ∧ ((pre ++ [ConnEv.evCloseCall, ConnEv.evOnClose]).get i = .evOnClose →
        (i : Nat) = pre.length + 1)
  ∧ (((pre ++ [ConnEv.evCloseCall, ConnEv.evOnClose]).get i = .evData ∨
      (pre ++ [ConnEv.evCloseCall, ConnEv.evOnClose]).get i = .evReady ∨
      (pre ++ [ConnEv.evCloseCall, ConnEv.evOnClose]).get i = .evPing ∨
      (pre ++ [ConnEv.evCloseCall, ConnEv.evOnClose]).get i = .evTask) →
        (i : Nat) < pre.length) := by
  rcases Nat.lt_or_ge (i : Nat) pre.length with hlt | hge
  · have hmem : (pre ++ [ConnEv.evCloseCall, ConnEv.evOnClose]).get i ∈ pre := by
      rw [List.get_eq_getElem, List.getElem_append_left hlt]
      exact List.getElem_mem _
    have hv := hall _ hmem
    refine ⟨?_, ?_, fun _ => hlt⟩
    · intro hc
      rcases hv with h' | h' | h' | h' <;> (rw [hc] at h'; cases h')
    · intro hc
      rcases hv with h' | h' | h' | h' <;> (rw [hc] at h'; cases h')
  · have hlen : (i : Nat) < pre.length + 2 := by
      have := i.isLt
      simpa using this
    have hget : (pre ++ [ConnEv.evCloseCall, ConnEv.evOnClose]).get i
        = [ConnEv.evCloseCall, ConnEv.evOnClose].get
            ⟨(i : Nat) - pre.length,
             by simp only [List.length_cons, List.length_nil]; omega⟩ := by
      rw [List.get_eq_getElem, List.get_eq_getElem]
      exact List.getElem_append_right hge
    rcases Nat.lt_or_ge ((i : Nat) - pre.length) 1 with h0 | h1
    · have h00 : (i : Nat) - pre.length = 0 := by omega
      have hv : (pre ++ [ConnEv.evCloseCall, ConnEv.evOnClose]).get i
          = .evCloseCall := by
        rw [hget]
        simp only [h00]
        rfl
      refine ⟨fun _ => by omega, ?_, ?_⟩
      · intro hc
        rw [hv] at hc
        cases hc
      · intro hc
        rcases hc with h' | h' | h' | h' <;> (rw [hv] at h'; cases h')
    · have h11 : (i : Nat) - pre.length = 1 := by omega
      have hv : (pre ++ [ConnEv.evCloseCall, ConnEv.evOnClose]).get i
          = .evOnClose := by
        rw [hget]
        simp only [h11]
        rfl
      refine ⟨?_, fun _ => by omega, ?_⟩
      · intro hc
        rw [hv] at hc
        cases hc
      · intro hc
        rcases hc with h' | h' | h' | h' <;> (rw [hv] at h'; cases h')

/-- C3: for every successfully attached fd, over a complete lifetime
(attach to slot release) `on_close` fires exactly once; it is the very
last event of the lifetime, so it strictly follows the last
`on_data`/`on_ready`/`ping`/scheduled task; and once the `close(fd)` call
has returned, no further `on_data` or `on_ready` fires for that fd. -/
theorem c3_on_close_exactly_once (evs : List ConnEv)
    (h : connRun .active evs = some .closed) :
    evs.count .evOnClose = 1
  ∧ evs.getLast? = some .evOnClose
  ∧ (∀ i j : Fin evs.length, evs.get i = .evOnClose →
        (evs.get j = .evData ∨ evs.get j = .evReady ∨
         evs.get j = .evPing ∨ evs.get j = .evTask) →
        (j : Nat) < (i : Nat))
  ∧ (∀ i j : Fin evs.length, evs.get i = .evCloseCall →
        (evs.get j = .evData ∨ evs.get j = .evReady) →
        (j : Nat) < (i : Nat)) := by
  obtain ⟨pre, hshape, hall⟩ := connRun_active_shape evs h
  subst hshape
  refine ⟨?_, ?_, ?_, ?_⟩
  · have hpre0 : pre.count ConnEv.evOnClose = 0 := by
      rw [List.count_eq_zero]
      intro hm
      rcases hall _ hm with h' | h' | h' | h' <;> cases h'
    simp [List.count_append, hpre0]
  · have hsplit : pre ++ [ConnEv.evCloseCall, ConnEv.evOnClose]
        = (pre ++ [ConnEv.evCloseCall]) ++ [ConnEv.evOnClose] := by
      simp
    rw [hsplit, List.getLast?_concat]
  · intro i j hi hj
    have hji := (connTrace_get pre hall j).2.2 hj
    have hii := (connTrace_get pre hall i).2.1 hi
    omega
  · intro i j hi hj
    have hji := (connTrace_get pre hall j).2.2 (by tauto)
    have hii := (connTrace_get pre hall i).1 hi
    omega

theorem c3_on_close_exactly_once_witness :
    connRun .active
        [ConnEv.evData, ConnEv.evReady, ConnEv.evPing, ConnEv.evTask,
         ConnEv.evCloseCall, ConnEv.evOnClose] = some .closed
  ∧ ([ConnEv.evData, ConnEv.evReady, ConnEv.evPing, ConnEv.evTask,
      ConnEv.evCloseCall, ConnEv.evOnClose].count .evOnClose = 1
    ∧ [ConnEv.evData, ConnEv.evReady, ConnEv.evPing, ConnEv.evTask,
       ConnEv.evCloseCall, ConnEv.evOnClose].getLast? = some .evOnClose
    ∧ (∀ i j : Fin ([ConnEv.evData, ConnEv.evReady, ConnEv.evPing,
          ConnEv.evTask, ConnEv.evCloseCall,
          ConnEv.evOnClose] : List ConnEv).length,
        [ConnEv.evData, ConnEv.evReady, ConnEv.evPing, ConnEv.evTask,
         ConnEv.evCloseCall, ConnEv.evOnClose].get i = .evOnClose →
        ([ConnEv.evData, ConnEv.evReady, ConnEv.evPing, ConnEv.evTask,
          ConnEv.evCloseCall, ConnEv.evOnClose].get j = .evData ∨
         [ConnEv.evData, ConnEv.evReady, ConnEv.evPing, ConnEv.evTask,
          ConnEv.evCloseCall, ConnEv.evOnClose].get j = .evReady ∨
         [ConnEv.evData, ConnEv.evReady, ConnEv.evPing, ConnEv.evTask,
          ConnEv.evCloseCall, ConnEv.evOnClose].get j = .evPing ∨
         [ConnEv.evData, ConnEv.evReady, ConnEv.evPing, ConnEv.evTask,
          ConnEv.evCloseCall, ConnEv.evOnClose].get j = .evTask) →
        (j : Nat) < (i : Nat))
    ∧ (∀ i j : Fin ([ConnEv.evData, ConnEv.evReady, ConnEv.evPing,
          ConnEv.evTask, ConnEv.evCloseCall,
          ConnEv.evOnClose] : List ConnEv).length,
        [ConnEv.evData, ConnEv.evReady, ConnEv.evPing, ConnEv.evTask,
         ConnEv.evCloseCall, ConnEv.evOnClose].get i = .evCloseCall →
        ([ConnEv.evData, ConnEv.evReady, ConnEv.evPing, ConnEv.evTask,
          ConnEv.evCloseCall, ConnEv.evOnClose].get j = .evData ∨
         [ConnEv.evData, ConnEv.evReady, ConnEv.evPing, ConnEv.evTask,
          ConnEv.evCloseCall, ConnEv.evOnClose].get j = .evReady) →
        (j : Nat) < (i : Nat))) :=
  ⟨by decide,
   c3_on_close_exactly_once
     [ConnEv.evData, ConnEv.evReady, ConnEv.evPing, ConnEv.evTask,
      ConnEv.evCloseCall, ConnEv.evOnClose] (by decide)⟩

/-- C4: `close(fd)` on an empty write buffer deregisters the fd, invokes
`on_close` and frees the slot; on a non-empty buffer it returns
immediately having only set the scheduled-close flag; a scheduled-close fd
rejects new outbound packets (`write` returns -1 and the buffer is
untouched) but its queued packets still drain, and the connection is
closed exactly when the drain empties the buffer — not while packets
remain. -/
theorem c4_close_semantics :
    (∀ s : Slot, s.buffer = [] → closeConn s = (defaultSlot, .freed))
  ∧ (∀ s : Slot, s.buffer ≠ [] →
        closeConn s = ({s with scheduledClose := true}, .scheduled))
  ∧ (∀ (s : Slot) (d : List Nat), s.scheduledClose = true →
        srvWrite s d = (s, -1))
  ∧ (∀ (s : Slot) (rs : List Int), s.scheduledClose = true →
        (slotDrain rs s).sent = (drain rs s.buffer).sent)
  ∧ (∀ (s : Slot) (rs : List Int), s.scheduledClose = true →
        (drain rs s.buffer).outcome = .emptied →
        (slotDrain rs s).closedNow = true ∧
        (slotDrain rs s).slot = defaultSlot)
  ∧ (∀ (s : Slot) (rs : List Int) (q : List Packet),
        (drain rs s.buffer).outcome = .stopped q →
        (slotDrain rs s).closedNow = false ∧
        (slotDrain rs s).slot.buffer = q) := by
  refine ⟨?_, ?_, ?_, ?_, ?_, ?_⟩
  · intro s hb
    unfold closeConn
    rw [hb]
    rfl
  · intro s hb
    unfold closeConn
    cases hbuf : s.buffer with
    | nil => exact absurd hbuf hb
    | cons p q => rfl
  · intro s d hs
    unfold srvWrite
    by_cases hp : s.protocol.isNone
    · rw [if_pos hp]
    · rw [if_neg hp, if_pos hs]
  · intro s rs hs
    unfold slotDrain
    cases hout : (drain rs s.buffer).outcome <;> simp [hout, hs]
  · intro s rs hs hout
    unfold slotDrain
    simp [hout, hs]
  · intro s rs q hout
    unfold slotDrain
    simp [hout]

theorem c4_close_semantics_witness :
    ((⟨some ⟨none, false⟩, [], false, none, none, 5, 0⟩ : Slot).buffer = []
      ∧ closeConn ⟨some ⟨none, false⟩, [], false, none, none, 5, 0⟩
          = (defaultSlot, .freed))
  ∧ ((⟨some ⟨none, false⟩, [⟨[1], 0, .copied⟩], false, none, none, 5,
        0⟩ : Slot).buffer ≠ []
      ∧ closeConn ⟨some ⟨none, false⟩, [⟨[1], 0, .copied⟩], false, none,
            none, 5, 0⟩
          = (⟨some ⟨none, false⟩, [⟨[1], 0, .copied⟩], true, none, none, 5,
             0⟩, .scheduled))
  ∧ ((⟨some ⟨none, false⟩, [⟨[1], 0, .copied⟩], true, none, none, 5,
        0⟩ : Slot).scheduledClose = true
      ∧ srvWrite ⟨some ⟨none, false⟩, [⟨[1], 0, .copied⟩], true, none,
            none, 5, 0⟩ [9]
          = (⟨some ⟨none, false⟩, [⟨[1], 0, .copied⟩], true, none, none, 5,
             0⟩, -1))
  ∧ ((drain [1] ([⟨[1], 0, .copied⟩] : List Packet)).outcome = .emptied
      ∧ (slotDrain [1] ⟨some ⟨none, false⟩, [⟨[1], 0, .copied⟩], true,
            none, none, 5, 0⟩).closedNow = true) := by
  refine ⟨⟨rfl, ?_⟩, ⟨by decide, ?_⟩, ⟨rfl, ?_⟩, ⟨by decide, ?_⟩⟩
  · exact c4_close_semantics.1 _ rfl
  · exact c4_close_semantics.2.1 _ (by decide)
  · exact c4_close_semantics.2.2.1 _ [9] rfl
  · exact (c4_close_semantics.2.2.2.2.1 ⟨some ⟨none, false⟩,
      [⟨[1], 0, .copied⟩], true, none, none, 5, 0⟩ [1] rfl (by decide)).1

/-- C5: on a timeout-wheel tick, every active connection whose idle time
has reached its per-fd timeout (`timeout ≤ now - last_touch`, timeout
nonzero) receives the protocol's `ping` callback if one is set and is
otherwise closed; a timeout of 0 means the connection is never timed out;
a connection not yet idle long enough is left alone; and the tick visits
every slot of the table in place, so the action happens within that one
tick. -/
theorem c5_timeout_tick :
    (∀ (now : Nat) (s : Slot) (pr : Protocol), s.protocol = some pr →
        s.timeout ≠ 0 → s.timeout ≤ now - s.lastTouch →
        tickSlot now s = (if pr.pingSet then .pinged else .closedOut))
  ∧ (∀ (now : Nat) (s : Slot), s.timeout = 0 → tickSlot now s = .idle)
  ∧ (∀ (now : Nat) (s : Slot) (pr : Protocol), s.protocol = some pr →
        now - s.lastTouch < s.timeout → tickSlot now s = .idle)
  ∧ (∀ (now : Nat) (tbl : List Slot) (i : Nat) (hi : i < tbl.length),
        (tickAll now tbl).get ⟨i, by simpa [tickAll] using hi⟩
          = tickSlot now (tbl.get ⟨i, hi⟩)) := by
  refine ⟨?_, ?_, ?_, ?_⟩
  · intro now s pr hp ht hidle
    unfold tickSlot
    rw [hp]
    simp only [if_neg ht, if_pos hidle]
  · intro now s ht
    unfold tickSlot
    cases s.protocol <;> simp [ht]
  · intro now s pr hp hidle
    unfold tickSlot
    rw [hp]
    dsimp only
    by_cases ht : s.timeout = 0
    · rw [if_pos ht]
    · rw [if_neg ht, if_neg (by omega)]
  · intro now tbl i hi
    simp [tickAll]

theorem c5_timeout_tick_witness :
    ((⟨some ⟨none, true⟩, [], false, none, none, 2, 3⟩ : Slot).protocol
        = some ⟨none, true⟩
      ∧ (⟨some ⟨none, true⟩, [], false, none, none, 2, 3⟩ : Slot).timeout
        ≠ 0
      ∧ (⟨some ⟨none, true⟩, [], false, none, none, 2, 3⟩ : Slot).timeout
        ≤ 5 - (⟨some ⟨none, true⟩, [], false, none, none, 2,
            3⟩ : Slot).lastTouch
      ∧ tickSlot 5 ⟨some ⟨none, true⟩, [], false, none, none, 2, 3⟩
        = (if (⟨none, true⟩ : Protocol).pingSet then .pinged
           else .closedOut))
  ∧ ((⟨some ⟨none, false⟩, [], false, none, none, 2, 3⟩ : Slot).protocol
        = some ⟨none, false⟩
      ∧ tickSlot 5 ⟨some ⟨none, false⟩, [], false, none, none, 2, 3⟩
        = .closedOut)
  ∧ ((⟨some ⟨none, true⟩, [], false, none, none, 0, 0⟩ : Slot).timeout = 0
      ∧ tickSlot 99 ⟨some ⟨none, true⟩, [], false, none, none, 0, 0⟩
        = .idle) := by
  refine ⟨⟨rfl, by decide, by decide, ?_⟩, ⟨rfl, ?_⟩, ⟨rfl, ?_⟩⟩
  · exact c5_timeout_tick.1 5 _ ⟨none, true⟩ rfl (by decide) (by decide)
  · have := c5_timeout_tick.1 5
      ⟨some ⟨none, false⟩, [], false, none, none, 2, 3⟩ ⟨none, false⟩ rfl
      (by decide) (by decide)
    simpa using this
  · exact c5_timeout_tick.2.1 99 _ rfl

/-- C6: a task scheduled with `fd_task` whose target slot is inactive at
dispatch time is replaced by exactly its fallback, invoked with
`(fd, arg)` — the task itself never runs (a dispatch produces one run,
task or fallback, never both); a still-active target runs the task;
closing a connection cancels every pending `fd_task` targeted at it,
running one fallback per cancelled item and removing the items, so that no
cancelled item remains pending and a repeated cancellation for the same fd
runs nothing further (each fallback runs at most once). -/
theorem c6_fd_task_fallback :
    (∀ (alive : Nat → Bool) (t : FdTask), alive t.fd = false →
        dispatchFdTask alive t = .ranFallback t.fd t.fallbackId t.argId)
  ∧ (∀ (alive : Nat → Bool) (t : FdTask), alive t.fd = true →
        dispatchFdTask alive t = .ranTask t.fd t.taskId t.argId)
  ∧ (∀ (pending : List FdTask) (fd : Nat),
        (cancelOnClose pending fd).1.length
          = (pending.filter (fun t => t.fd = fd)).length
      ∧ (∀ r ∈ (cancelOnClose pending fd).1, ∃ t ∈ pending,
            t.fd = fd ∧ r = .ranFallback t.fd t.fallbackId t.argId)
      ∧ (∀ t ∈ (cancelOnClose pending fd).2, t.fd ≠ fd)
      ∧ cancelOnClose (cancelOnClose pending fd).2 fd
          = ([], (cancelOnClose pending fd).2)) := by
  refine ⟨?_, ?_, ?_⟩
  · intro alive t h
    unfold dispatchFdTask
    rw [if_neg (by simp [h])]
  · intro alive t h
    unfold dispatchFdTask
    rw [if_pos h]
  · intro pending fd
    refine ⟨by simp [cancelOnClose], ?_, ?_, ?_⟩
    · intro r hr
      unfold cancelOnClose at hr
      obtain ⟨t, ht, rfl⟩ := List.mem_map.mp hr
      have := List.mem_filter.mp ht
      exact ⟨t, this.1, by simpa using this.2, rfl⟩
    · intro t ht
      unfold cancelOnClose at ht
      have := List.mem_filter.mp ht
      simpa using this.2
    · unfold cancelOnClose
      simp only [Prod.mk.injEq]
      constructor
      · apply List.map_eq_nil_iff.mpr
        rw [List.filter_filter]
        apply List.filter_eq_nil_iff.mpr
        intro t _
        simp
      · rw [List.filter_filter]
        apply List.filter_congr
        intro t _
        simp

theorem c6_fd_task_fallback_witness :
    ((fun _ => false : Nat → Bool) (⟨3, 7, 8, 9⟩ : FdTask).fd = false
      ∧ dispatchFdTask (fun _ => false) ⟨3, 7, 8, 9⟩ = .ranFallback 3 9 8)
  ∧ ((fun _ => true : Nat → Bool) (⟨3, 7, 8, 9⟩ : FdTask).fd = true
      ∧ dispatchFdTask (fun _ => true) ⟨3, 7, 8, 9⟩ = .ranTask 3 7 8)
  ∧ ((cancelOnClose [⟨3, 7, 8, 9⟩, ⟨4, 1, 2, 3⟩] 3).1.length
        = (([⟨3, 7, 8, 9⟩, ⟨4, 1, 2, 3⟩] : List FdTask).filter
            (fun t => t.fd = 3)).length
      ∧ cancelOnClose (cancelOnClose [⟨3, 7, 8, 9⟩, ⟨4, 1, 2, 3⟩] 3).2 3
        = ([], (cancelOnClose [⟨3, 7, 8, 9⟩, ⟨4, 1, 2, 3⟩] 3).2)) := by
  refine ⟨⟨rfl, ?_⟩, ⟨rfl, ?_⟩, ?_, ?_⟩
  · exact c6_fd_task_fallback.1 (fun _ => false) ⟨3, 7, 8, 9⟩ rfl
  · exact c6_fd_task_fallback.2.1 (fun _ => true) ⟨3, 7, 8, 9⟩ rfl
  · exact (c6_fd_task_fallback.2.2 [⟨3, 7, 8, 9⟩, ⟨4, 1, 2, 3⟩] 3).1
  · exact (c6_fd_task_fallback.2.2 [⟨3, 7, 8, 9⟩, ⟨4, 1, 2, 3⟩] 3).2.2.2

theorem eachTargets_nodup (tbl : List (Nat × Option Protocol))
    (hnd : (tbl.map Prod.fst).Nodup) (service : Option String) :
    (eachTargets tbl service).Nodup := by
  unfold eachTargets
  exact List.Nodup.sublist (List.Sublist.map Prod.fst
    (List.filter_sublist tbl)) hnd

/-- C7: an `each(service, task, arg, on_finish)` call dispatches its
per-fd task exactly once to every active connection whose protocol's
service string equals `service` — to every active connection when
`service` is NULL, and never to an inactive slot or a non-matching
service; each dispatched item runs the task, or its fallback if the target
died first; and `on_finish` is invoked exactly once, as the last event of
the fan-out, after every per-fd task or fallback. -/
theorem runEach_dispatch_injective (alive : Nat → Bool) :
    Function.Injective
      (fun fd => if alive fd then EachEv.taskOn fd
                 else EachEv.fallbackOn fd) := by
  intro a b hab
  by_cases ha : alive a <;> by_cases hb : alive b <;>
    simp [ha, hb] at hab <;> exact hab

/-- C7: an `each(service, task, arg, on_finish)` call dispatches its
per-fd task exactly once to every active connection whose protocol's
service string equals `service` — to every active connection when
`service` is NULL, and never to an inactive slot or a non-matching
service; each dispatched item runs the task, or its fallback if the
target died before dispatch; and `on_finish` is invoked exactly once,
as the last event of the fan-out, after every per-fd task or
fallback. -/
theorem c7_each_fanout :
    (∀ (tbl : List (Nat × Option Protocol)) (service : Option String)
        (alive : Nat → Bool) (origin fd : Nat) (pr : Protocol),
        (tbl.map Prod.fst).Nodup → (fd, some pr) ∈ tbl →
        eachMatch service (some pr) = true →
        (eachTargets tbl service).count fd = 1
          ∧ (runEach tbl alive service origin).count
              (if alive fd then EachEv.taskOn fd
               else EachEv.fallbackOn fd) = 1)
  ∧ (∀ tbl service fd, fd ∈ eachTargets tbl service →
        ∃ pr, (fd, some pr) ∈ tbl ∧ eachMatch service (some pr) = true)
  ∧ (∀ (pr : Protocol) (sv : String),
        eachMatch (some sv) (some pr) = true ↔ pr.service = some sv)
  ∧ (∀ pr : Protocol, eachMatch none (some pr) = true)
  ∧ (∀ service, eachMatch service none = false)
  ∧ (∀ (tbl : List (Nat × Option Protocol)) (alive : Nat → Bool)
        (service : Option String) (origin : Nat),
        (runEach tbl alive service origin).count (.finished origin) = 1
          ∧ (runEach tbl alive service origin).getLast?
            = some (.finished origin)) := by
  refine ⟨?_, ?_, ?_, ?_, ?_, ?_⟩
  · intro tbl service alive origin fd pr hnd hmem hmatch
    have hfd : fd ∈ eachTargets tbl service := by
      unfold eachTargets
      exact List.mem_map.mpr ⟨(fd, some pr),
        List.mem_filter.mpr ⟨hmem, by simpa using hmatch⟩, rfl⟩
    have hcount : (eachTargets tbl service).count fd = 1 :=
      List.count_eq_one_of_mem (eachTargets_nodup tbl hnd service) hfd
    refine ⟨hcount, ?_⟩
    unfold runEach
    rw [List.count_append,
      List.count_map_of_injective _ _ (runEach_dispatch_injective alive) fd,
      hcount]
    by_cases ha : alive fd <;> simp [ha]
  · intro tbl service fd hfd
    unfold eachTargets at hfd
    obtain ⟨⟨a, b⟩, hab, rfl⟩ := List.mem_map.mp hfd
    have := List.mem_filter.mp hab
    cases b with
    | none => simp [eachMatch] at this
    | some pr => exact ⟨pr, this.1, by simpa using this.2⟩
  · intro pr sv
    simp [eachMatch]
  · intro pr
    rfl
  · intro service
    cases service <;> rfl
  · intro tbl alive service origin
    constructor
    · unfold runEach
      rw [List.count_append]
      have h0 : ((eachTargets tbl service).map
          (fun fd => if alive fd then EachEv.taskOn fd
                     else EachEv.fallbackOn fd)).count
            (EachEv.finished origin) = 0 := by
        rw [List.count_eq_zero]
        intro hmem
        obtain ⟨a, _, ha⟩ := List.mem_map.mp hmem
        by_cases h : alive a <;> simp [h] at ha
      rw [h0]
      simp
    · unfold runEach
      have : ((eachTargets tbl service).map
            (fun fd => if alive fd then EachEv.taskOn fd
                       else EachEv.fallbackOn fd))
          ++ [EachEv.finished origin]
          = (((eachTargets tbl service).map
              (fun fd => if alive fd then EachEv.taskOn fd
                         else EachEv.fallbackOn fd)))
            ++ [EachEv.finished origin] := rfl
      rw [List.getLast?_concat]

theorem c7_each_fanout_witness :
    (([(1, some ⟨some "X", false⟩), (2, some ⟨some "Y", false⟩),
        (5, none)] : List (Nat × Option Protocol)).map Prod.fst).Nodup
  ∧ ((1 : Nat), some (⟨some "X", false⟩ : Protocol))
      ∈ ([(1, some ⟨some "X", false⟩), (2, some ⟨some "Y", false⟩),
          (5, none)] : List (Nat × Option Protocol))
  ∧ eachMatch (some "X") (some ⟨some "X", false⟩) = true
  ∧ (eachTargets [(1, some ⟨some "X", false⟩), (2, some ⟨some "Y", false⟩),
        (5, none)] (some "X")).count 1 = 1
  ∧ (runEach [(1, some ⟨some "X", false⟩), (2, some ⟨some "Y", false⟩),
        (5, none)] (fun _ => true) (some "X") 9).count
      (if (fun _ => true : Nat → Bool) 1 then EachEv.taskOn 1
       else EachEv.fallbackOn 1) = 1
  ∧ (runEach [(1, some ⟨some "X", false⟩), (2, some ⟨some "Y", false⟩),
        (5, none)] (fun _ => true) (some "X") 9).count (.finished 9) = 1
  ∧ (runEach [(1, some ⟨some "X", false⟩), (2, some ⟨some "Y", false⟩),
        (5, none)] (fun _ => true) (some "X") 9).getLast?
      = some (.finished 9) := by
  have h1 := c7_each_fanout.1 [(1, some ⟨some "X", false⟩),
    (2, some ⟨some "Y", false⟩), (5, none)] (some "X") (fun _ => true) 9 1
    ⟨some "X", false⟩ (by decide) (by decide) (by decide)
  have h2 := c7_each_fanout.2.2.2.2.2 [(1, some ⟨some "X", false⟩),
    (2, some ⟨some "Y", false⟩), (5, none)] (fun _ => true) (some "X") 9
  exact ⟨by decide, by decide, by decide, h1.1, h1.2, h2.1, h2.2⟩

theorem mem_map_const_eq (l : List Nat) (f : Nat → StopEv) (k x : Nat)
    (hf : ∀ a, stopStage (f a) = k)
    (hx : x ∈ (l.map f).map stopStage) : x = k := by
  obtain ⟨b, hb, hbx⟩ := List.mem_map.mp hx
  obtain ⟨c, _, hcb⟩ := List.mem_map.mp hb
  rw [← hbx, ← hcb, hf c]

theorem pairwise_le_of_all_eq (l : List Nat) (k : Nat)
    (h : ∀ x ∈ l, x = k) : l.Pairwise (· ≤ ·) := by
  induction l with
  | nil => exact List.Pairwise.nil
  | cons a t ih =>
    refine List.pairwise_cons.mpr ⟨?_, ?_⟩
    · intro x hx
      rw [h a (List.mem_cons_self _ _), h x (List.mem_cons_of_mem _ hx)]
    · exact ih fun x hx => h x (List.mem_cons_of_mem _ hx)

theorem gracefulStop_stages_pairwise (conns : List Nat) :
    ((gracefulStop conns).map stopStage).Pairwise (· ≤ ·) := by
  have hshape : (gracefulStop conns).map stopStage
      = (StopEv.acceptStopped :: conns.map StopEv.shutdownOn).map stopStage
        ++ ((StopEv.drained :: conns.map StopEv.closeOn).map stopStage
          ++ [4, 5]) := by
    unfold gracefulStop
    simp [stopStage]
  rw [hshape]
  have hA : ∀ x ∈ (StopEv.acceptStopped ::
      conns.map StopEv.shutdownOn).map stopStage, x ≤ 1 := by
    intro x hx
    rw [List.map_cons] at hx
    rcases List.mem_cons.mp hx with hx0 | hx1
    · subst hx0
      decide
    · have := mem_map_const_eq conns StopEv.shutdownOn 1 x (fun _ => rfl)
        hx1
      omega
  have hB : ∀ x ∈ (StopEv.drained :: conns.map StopEv.closeOn).map stopStage
      ++ [4, 5], 2 ≤ x := by
    intro x hx
    rcases List.mem_append.mp hx with hx' | hx'
    · rw [List.map_cons] at hx'
      rcases List.mem_cons.mp hx' with hx0 | hx1
      · subst hx0
        decide
      · have := mem_map_const_eq conns StopEv.closeOn 3 x (fun _ => rfl)
          hx1
        omega
    · rcases List.mem_cons.mp hx' with h4 | h5
      · omega
      · have : x = 5 := by simpa using h5
        omega
  refine List.pairwise_append.mpr ⟨?_, ?_, ?_⟩
  · simp only [List.map_cons]
    refine List.pairwise_cons.mpr ⟨?_, ?_⟩
    · intro x hx
      have := mem_map_const_eq conns StopEv.shutdownOn 1 x (fun _ => rfl) hx
      simp [stopStage, this]
    · exact pairwise_le_of_all_eq _ 1
        (fun x hx => mem_map_const_eq conns StopEv.shutdownOn 1 x
          (fun _ => rfl) hx)
  · refine List.pairwise_append.mpr ⟨?_, ?_, ?_⟩
    · simp only [List.map_cons]
      refine List.pairwise_cons.mpr ⟨?_, ?_⟩
      · intro x hx
        have := mem_map_const_eq conns StopEv.closeOn 3 x (fun _ => rfl) hx
        simp [stopStage, this]
      · exact pairwise_le_of_all_eq _ 3
          (fun x hx => mem_map_const_eq conns StopEv.closeOn 3 x
            (fun _ => rfl) hx)
    · refine List.pairwise_cons.mpr ⟨?_, by simp⟩
      intro x hx
      have : x = 5 := by simpa using hx
      omega
    · intro a ha b hb
      have ha' : a ≤ 3 := by
        rw [List.map_cons] at ha
        rcases List.mem_cons.mp ha with h0 | h1
        · subst h0
          decide
        · have := mem_map_const_eq conns StopEv.closeOn 3 a (fun _ => rfl)
            h1
          omega
      have hb' : 4 ≤ b := by
        rcases List.mem_cons.mp hb with h4 | h5
        · omega
        · have : b = 5 := by simpa using h5
          omega
      omega
  · intro a ha b hb
    have ha' := hA a ha
    have hb' := hB b hb
    omega

theorem gracefulStop_stage_mono (conns : List Nat)
    (i j : Fin (gracefulStop conns).length) (hij : (i : Nat) < (j : Nat)) :
    stopStage ((gracefulStop conns).get i)
      ≤ stopStage ((gracefulStop conns).get j) := by
  have hp := gracefulStop_stages_pairwise conns
  rw [List.pairwise_iff_getElem] at hp
  have := hp i j (by simp) (by simp) hij
  simpa using this

theorem gracefulStop_stage_order (conns : List Nat)
    (i j : Fin (gracefulStop conns).length)
    (h : stopStage ((gracefulStop conns).get j)
        < stopStage ((gracefulStop conns).get i)) :
    (j : Nat) < (i : Nat) := by
  rcases Nat.lt_trichotomy (j : Nat) (i : Nat) with hlt | heq | hgt
  · exact hlt
  · have hji : j = i := Fin.ext heq
    rw [hji] at h
    exact absurd h (lt_irrefl _)
  · have := gracefulStop_stage_mono conns i j hgt
    omega

/-- C8: graceful stop proceeds in phase order: accepting stops first;
`on_shutdown` is invoked once per active connection, all before any
connection is closed (and before the bounded drain); the drain precedes
every close; every connection then receives `on_close`; `on_finish` is
invoked exactly once, after every close; and `listen` returns 0 as the
very last event. -/
theorem c8_graceful_stop (conns : List Nat) :
    (gracefulStop conns).head? = some .acceptStopped
  ∧ (∀ fd, (gracefulStop conns).count (.shutdownOn fd) = conns.count fd)
  ∧ (∀ fd, (gracefulStop conns).count (.closeOn fd) = conns.count fd)
  ∧ (∀ (i j : Fin (gracefulStop conns).length) (a b : Nat),
        (gracefulStop conns).get i = .closeOn a →
        (gracefulStop conns).get j = .shutdownOn b →
        (j : Nat) < (i : Nat))
  ∧ (∀ (i j : Fin (gracefulStop conns).length) (b : Nat),
        (gracefulStop conns).get i = .drained →
        (gracefulStop conns).get j = .shutdownOn b →
        (j : Nat) < (i : Nat))
  ∧ (∀ (i j : Fin (gracefulStop conns).length) (a : Nat),
        (gracefulStop conns).get i = .closeOn a →
        (gracefulStop conns).get j = .drained →
        (j : Nat) < (i : Nat))
  ∧ (∀ (i j : Fin (gracefulStop conns).length) (a : Nat),
        (gracefulStop conns).get i = .finished →
        (gracefulStop conns).get j = .closeOn a →
        (j : Nat) < (i : Nat))
  ∧ (gracefulStop conns).count .finished = 1
  ∧ (gracefulStop conns).getLast? = some (.returned 0) := by
  have hinjS : Function.Injective StopEv.shutdownOn :=
    fun a b hab => StopEv.shutdownOn.inj hab
  have hinjC : Function.Injective StopEv.closeOn :=
    fun a b hab => StopEv.closeOn.inj hab
  refine ⟨?_, ?_, ?_, ?_, ?_, ?_, ?_, ?_, ?_⟩
  · simp [gracefulStop]
  · intro fd
    have h0 : (conns.map StopEv.closeOn).count (StopEv.shutdownOn fd)
        = 0 := by
      rw [List.count_eq_zero]
      intro hm
      obtain ⟨a, _, ha⟩ := List.mem_map.mp hm
      exact absurd ha (by simp)
    simp [gracefulStop, List.count_append, List.count_cons, h0,
      List.count_map_of_injective _ _ hinjS]
  · intro fd
    have h0 : (conns.map StopEv.shutdownOn).count (StopEv.closeOn fd)
        = 0 := by
      rw [List.count_eq_zero]
      intro hm
      obtain ⟨a, _, ha⟩ := List.mem_map.mp hm
      exact absurd ha (by simp)
    simp [gracefulStop, List.count_append, List.count_cons, h0,
      List.count_map_of_injective _ _ hinjC]
  · intro i j a b hi hj
    exact gracefulStop_stage_order conns i j
      (by rw [hi, hj]; simp [stopStage])
  · intro i j b hi hj
    exact gracefulStop_stage_order conns i j
      (by rw [hi, hj]; simp [stopStage])
  · intro i j a hi hj
    exact gracefulStop_stage_order conns i j
      (by rw [hi, hj]; simp [stopStage])
  · intro i j a hi hj
    exact gracefulStop_stage_order conns i j
      (by rw [hi, hj]; simp [stopStage])
  · have h1 : (conns.map StopEv.shutdownOn).count StopEv.finished = 0 := by
      rw [List.count_eq_zero]
      intro hm
      obtain ⟨a, _, ha⟩ := List.mem_map.mp hm
      exact absurd ha (by simp)
    have h2 : (conns.map StopEv.closeOn).count StopEv.finished = 0 := by
      rw [List.count_eq_zero]
      intro hm
      obtain ⟨a, _, ha⟩ := List.mem_map.mp hm
      exact absurd ha (by simp)
    simp [gracefulStop, List.count_append, List.count_cons, h1, h2]
  · have hsplit : gracefulStop conns
        = ((StopEv.acceptStopped :: conns.map StopEv.shutdownOn)
            ++ (StopEv.drained :: conns.map StopEv.closeOn)
            ++ [StopEv.finished]) ++ [StopEv.returned 0] := by
      simp [gracefulStop]
    rw [hsplit, List.getLast?_concat]

theorem c8_graceful_stop_witness :
    (gracefulStop [1, 2]).head? = some .acceptStopped
  ∧ (gracefulStop [1, 2]).count (.shutdownOn 1) = ([1, 2] : List Nat).count 1
  ∧ (gracefulStop [1, 2]).count (.closeOn 2) = ([1, 2] : List Nat).count 2
  ∧ ((gracefulStop [1, 2]).get ⟨4, by decide⟩ = .closeOn 1
      ∧ (gracefulStop [1, 2]).get ⟨2, by decide⟩ = .shutdownOn 2
      ∧ (2 : Nat) < 4)
  ∧ (gracefulStop [1, 2]).count .finished = 1
  ∧ (gracefulStop [1, 2]).getLast? = some (.returned 0) := by
  have h := c8_graceful_stop [1, 2]
  refine ⟨h.1, h.2.1 1, h.2.2.1 2, ⟨by decide, by decide, ?_⟩, h.2.2.2.2.2.2.2.1,
    h.2.2.2.2.2.2.2.2⟩
  exact h.2.2.2.1 ⟨4, by decide⟩ ⟨2, by decide⟩ 1 2 (by decide) (by decide)

/-- C9: `run_async(task, arg)` on a server configured without a worker
pool (`threads` equal to 0 or 1) executes the task inline on the calling
thread before returning, leaving the worker queue untouched; with a pool
(`threads ≥ 2`) it only enqueues the task at the tail of the shared
worker queue and runs nothing inline; it returns 0 on success and -1 on
error. -/
theorem c9_run_async :
    (∀ (threads : Nat) (queue : List Nat) (task : Nat), threads ≤ 1 →
        runAsync threads queue (some task) = (queue, [task], 0))
  ∧ (∀ (threads : Nat) (queue : List Nat) (task : Nat), 2 ≤ threads →
        runAsync threads queue (some task) = (queue ++ [task], [], 0))
  ∧ (∀ (threads : Nat) (queue : List Nat),
        runAsync threads queue none = (queue, [], -1)) := by
  refine ⟨?_, ?_, ?_⟩
  · intro threads queue task h
    unfold runAsync
    dsimp only
    rw [if_pos h]
  · intro threads queue task h
    unfold runAsync
    dsimp only
    rw [if_neg (by omega)]
  · intro threads queue
    rfl

theorem c9_run_async_witness :
    ((1 : Nat) ≤ 1 ∧ runAsync 1 [7] (some 42) = ([7], [42], 0))
  ∧ ((2 : Nat) ≤ 2 ∧ runAsync 2 [7] (some 42) = ([7, 42], [], 0)) := by
  refine ⟨⟨by decide, ?_⟩, ⟨by decide, ?_⟩⟩
  · exact c9_run_async.1 1 [7] 42 (by decide)
  · have := c9_run_async.2.1 2 [7] 42 (by decide)
    simpa using this

/-- C10: read/write hooks installed via `rw_hooks` are attached to the
one target slot only — every other slot of the table is untouched;
closing the connection clears them, whether the close frees the slot at
once or the drain path finishes a scheduled close (the freed slot carries
the default hooks); and a later `attach` on the recycled fd yields a slot
whose read and write hooks are the defaults (`recv`/`write` wrappers),
never the previous connection's hooks. -/
theorem c10_rw_hooks_scoped :
    (∀ (tbl : List Slot) (fd : Nat) (rh wh : Option Nat) (j : Nat),
        j ≠ fd → (rwHooks tbl fd rh wh)[j]? = tbl[j]?)
  ∧ (∀ (tbl : List Slot) (fd : Nat) (rh wh : Option Nat) (s : Slot),
        tbl[fd]? = some s →
        (rwHooks tbl fd rh wh)[fd]?
          = some {s with readHook := rh, writeHook := wh})
  ∧ (∀ s : Slot, s.buffer = [] →
        (closeConn s).1.readHook = none ∧ (closeConn s).1.writeHook = none)
  ∧ (∀ (s : Slot) (rs : List Int), (slotDrain rs s).closedNow = true →
        (slotDrain rs s).slot.readHook = none ∧
        (slotDrain rs s).slot.writeHook = none)
  ∧ (∀ (tbl : List Slot) (fd : Nat) (pr : Protocol) (tout : Nat),
        fd < tbl.length →
        (attach tbl fd pr tout)[fd]?
          = some {defaultSlot with protocol := some pr, timeout := tout}) := by
  refine ⟨?_, ?_, ?_, ?_, ?_⟩
  · intro tbl fd rh wh j hj
    unfold rwHooks
    cases htl : tbl[fd]? with
    | none => rfl
    | some s => exact List.getElem?_set_ne (by omega)
  · intro tbl fd rh wh s hs
    unfold rwHooks
    rw [hs]
    have hlt : fd < tbl.length := by
      by_contra hge
      rw [List.getElem?_eq_none (by omega)] at hs
      cases hs
    exact List.getElem?_set_self hlt
  · intro s hb
    simp [closeConn, hb, defaultSlot]
  · intro s rs h
    unfold slotDrain at h ⊢
    cases hout : (drain rs s.buffer).outcome
    case closed => simp [hout, defaultSlot]
    case stopped q => simp [hout] at h
    case emptied =>
      by_cases hsc : s.scheduledClose
      · simp [hout, hsc, defaultSlot]
      · simp [hout, hsc] at h
  · intro tbl fd pr tout hfd
    unfold attach
    exact List.getElem?_set_self (by simpa using hfd)

theorem c10_rw_hooks_scoped_witness :
    ((0 : Nat) ≠ 1
      ∧ (rwHooks [defaultSlot, ⟨some ⟨none, false⟩, [], false, none, none,
            5, 0⟩] 1 (some 8) (some 9))[0]?
        = ([defaultSlot, ⟨some ⟨none, false⟩, [], false, none, none, 5,
            0⟩] : List Slot)[0]?)
  ∧ (([defaultSlot, ⟨some ⟨none, false⟩, [], false, none, none, 5,
          0⟩] : List Slot)[1]?
        = some ⟨some ⟨none, false⟩, [], false, none, none, 5, 0⟩
      ∧ (rwHooks [defaultSlot, ⟨some ⟨none, false⟩, [], false, none, none,
            5, 0⟩] 1 (some 8) (some 9))[1]?
        = some ⟨some ⟨none, false⟩, [], false, some 8, some 9, 5, 0⟩)
  ∧ ((⟨some ⟨none, false⟩, [], false, some 8, some 9, 5, 0⟩ : Slot).buffer
        = []
      ∧ (closeConn ⟨some ⟨none, false⟩, [], false, some 8, some 9, 5,
          0⟩).1.readHook = none)
  ∧ ((1 : Nat) < ([defaultSlot, defaultSlot] : List Slot).length
      ∧ (attach [defaultSlot, defaultSlot] 1 ⟨none, false⟩ 5)[1]?
        = some ⟨some ⟨none, false⟩, [], false, none, none, 5, 0⟩) := by
  refine ⟨⟨by decide, ?_⟩, ⟨rfl, ?_⟩, ⟨rfl, ?_⟩, ⟨by decide, ?_⟩⟩
  · exact c10_rw_hooks_scoped.1 [defaultSlot, ⟨some ⟨none, false⟩, [],
      false, none, none, 5, 0⟩] 1 (some 8) (some 9) 0 (by decide)
  · exact c10_rw_hooks_scoped.2.1 [defaultSlot, ⟨some ⟨none, false⟩, [],
      false, none, none, 5, 0⟩] 1 (some 8) (some 9)
      ⟨some ⟨none, false⟩, [], false, none, none, 5, 0⟩ rfl
  · exact (c10_rw_hooks_scoped.2.2.1 ⟨some ⟨none, false⟩, [], false,
      some 8, some 9, 5, 0⟩ rfl).1
  · exact c10_rw_hooks_scoped.2.2.2.2 [defaultSlot, defaultSlot] 1
      ⟨none, false⟩ 5 (by decide)

end ProtocolServer
